import Mathlib

/-!
Shallow embedding of `textconverter.py` (pdfminer-six-rst-converter): the
inline/block/chapter data model, style classification, merge passes and the
renderer, together with theorems settling the frozen claims about them.

Modelling conventions:
* PDF coordinates and font sizes are embedded as exact fixed-point integers
  in hundredths of a unit (`4800` stands for `48.0`).  The source compares
  these values only with one-decimal constants after `round(x, 1)`, so the
  fixed-point embedding is exact for every comparison the code performs.
  `round(x, 1)` is embedded as round-half-to-even onto tenths (`pyRound1`).
* Python object identity of layout boxes (`a is b`) is embedded as equality
  of `Box` values; each distinct source box carries a distinct `id` field.
* Code that can raise (`IndexError` on an empty list, unpacking errors) is
  embedded with `Option`: `none` models an uncaught exception escaping.
* Warnings (`log.warning` in `font_warning`) are modelled as the list of
  line identifiers warned about, in order of emission.
-/

namespace TextConv

/-- All style tags occurring in the source (both the inline-style and the
block-style string literals; `figureComment`/`listItem` stand for the
`'figure-comment'`/`'list-item'` strings). -/
inductive Style where
  | normal | strong | em | code | term
  | header | figure | figureComment | toc
  | part | h1 | h2 | h3 | lineblock | listItem
  | paragraph | glossary
  deriving DecidableEq, Repr

/-- An inline run: one style tag plus the fragments appended in traversal
order (`InlineElement` in the source; the `parent` back-pointer is dropped). -/
structure InlineElement where
  style : Style := .normal
  text_stack : List String := []
  deriving DecidableEq, Repr

/-- The geometry of a source text box (`LTTextBoxHorizontal`): its `x0`/`y0`
and the `x0` of the first contained line (`list(item)[0].x0`), all in
fixed-point hundredths.  The `id` field stands for Python object identity:
distinct box objects get distinct ids. -/
structure Box where
  id : Nat
  x0 : ℤ
  y0 : ℤ
  firstLineX : ℤ
  deriving DecidableEq, Repr

/-- A block (`BlockElement` in the source): its layout box (`none` for the
sentinel created by `merge_blocks`), the explicitly assigned style
(`_style`), the inline runs, and the page id it was seen on. -/
structure BlockElement where
  item : Option Box
  _style : Option Style := none
  inlines : List InlineElement := []
  page : Option Nat := none
  deriving DecidableEq, Repr

/-- Python's `round(x, 1)` on a fixed-point value in hundredths, returning
tenths: round half to even. -/
def pyRound1 (x : ℤ) : ℤ :=
  let q := x.fdiv 10
  let r := x - 10 * q
  if r < 5 then q else if 5 < r then q + 1 else if q % 2 = 0 then q else q + 1

/-- Python's `\w` on the ASCII range: letters, digits, underscore. -/
def isWordChar (c : Char) : Bool := c.isAlphanum || c = '_'

/-- Python's `\s` (and the default `str.strip` set) on the ASCII range. -/
def isSpaceChar (c : Char) : Bool :=
  c = ' ' || c = '\t' || c = '\n' || c = '\r' ||
  c = Char.ofNat 11 || c = Char.ofNat 12

theorem dropWhile_len_le (p : α → Bool) (l : List α) :
    (l.dropWhile p).length ≤ l.length := by
  induction l with
  | nil => simp
  | cons a l ih =>
    by_cases h : p a
    · simp only [List.dropWhile_cons, h, if_true]
      exact Nat.le_succ_of_le ih
    · simp [List.dropWhile_cons, h]

/-- The scanner of `re.sub(r'(\w)- (\w)', r'\1-\2', text)`: left-to-right,
non-overlapping rejoin of a hyphen-space split whose two sides are word
characters.  The fuel argument only makes the recursion structural: every
step consumes at least one character while spending one fuel, so fuel equal
to the list length never runs out. -/
def hyphenJoinGo : Nat → List Char → List Char
  | 0, l => l
  | _ + 1, [] => []
  | fuel + 1, c1 :: rest1 =>
    match rest1 with
    | '-' :: ' ' :: c2 :: rest =>
      if isWordChar c1 && isWordChar c2 then c1 :: '-' :: c2 :: hyphenJoinGo fuel rest
      else c1 :: hyphenJoinGo fuel rest1
    | _ => c1 :: hyphenJoinGo fuel rest1

/-- `re.sub(r'(\w)- (\w)', r'\1-\2', text)`. -/
def hyphenJoin (l : List Char) : List Char := hyphenJoinGo l.length l

/-- The scanner of `re.sub(r' (\s+)', ' ', text)`: a space followed by a
maximal nonempty whitespace run collapses to a single space (fuel as in
`hyphenJoinGo`). -/
def collapseGo : Nat → List Char → List Char
  | 0, l => l
  | _ + 1, [] => []
  | fuel + 1, c :: rest1 =>
    if c = ' ' then
      match rest1 with
      | c2 :: rest =>
        if isSpaceChar c2 then ' ' :: collapseGo fuel (rest.dropWhile isSpaceChar)
        else ' ' :: collapseGo fuel rest1
      | [] => [' ']
    else c :: collapseGo fuel rest1

/-- `re.sub(r' (\s+)', ' ', text)`. -/
def collapseSpaces (l : List Char) : List Char := collapseGo l.length l

/-- `InlineElement.raw_text`: fragments joined, hyphen-space splits rejoined,
and whitespace runs collapsed unless the run's style is `code`. -/
def InlineElement.raw_text (i : InlineElement) : String :=
  let text := (String.join i.text_stack).data
  let text := hyphenJoin text
  let text := if i.style = .code then text else collapseSpaces text
  String.mk text

/-- One attempt of the regex `\bFigure (\d+)\.(\d+)\b` at the head of the
list (the leading `\b` is checked by the caller): on success returns the two
digit groups and the remainder after the match. -/
def matchFig : List Char → Option (List Char × List Char × List Char)
  | 'F' :: 'i' :: 'g' :: 'u' :: 'r' :: 'e' :: ' ' :: rest =>
    match rest.dropWhile Char.isDigit with
    | '.' :: r2 =>
      if (rest.takeWhile Char.isDigit).isEmpty then none
      else if (r2.takeWhile Char.isDigit).isEmpty then none
      else
        match r2.dropWhile Char.isDigit with
        | [] => some (rest.takeWhile Char.isDigit, r2.takeWhile Char.isDigit, [])
        | c :: tail =>
          if isWordChar c then none
          else some (rest.takeWhile Char.isDigit, r2.takeWhile Char.isDigit, c :: tail)
    | _ => none
  | _ => none

theorem matchFig_len {l d1 d2 r3} (h : matchFig l = some (d1, d2, r3)) :
    r3.length < l.length := by
  unfold matchFig at h
  split at h
  case h_2 => exact absurd h (by simp)
  case h_1 rest =>
    split at h
    case h_2 => exact absurd h (by simp)
    case h_1 r2 hdrop =>
      have h2 : r2.length < rest.length := by
        have := dropWhile_len_le Char.isDigit rest
        rw [hdrop] at this
        simp at this
        omega
      have h3 : (r2.dropWhile Char.isDigit).length ≤ r2.length :=
        dropWhile_len_le _ _
      split at h
      · exact absurd h (by simp)
      split at h
      · exact absurd h (by simp)
      split at h
      case h_1 =>
        simp only [Option.some.injEq, Prod.mk.injEq] at h
        obtain ⟨-, -, h⟩ := h
        subst h
        simp
      case h_2 c tail heq =>
        split at h
        · exact absurd h (by simp)
        · simp only [Option.some.injEq, Prod.mk.injEq] at h
          obtain ⟨-, -, h⟩ := h
          subst h
          rw [heq] at h3
          simp only [List.length_cons] at h3 ⊢
          omega

/-- The scanner of `re.sub(r'\bFigure (\d+)\.(\d+)\b', r':numref:`figure-\1-\2`', text)`:
`prevWord` records whether the previous character of the original string was
a word character (for the leading `\b`).  The fuel argument only makes the
recursion structural: a successful match consumes at least nine characters
while spending one fuel, so fuel equal to the list length never runs out. -/
def figScanGo : Nat → Bool → List Char → List Char
  | 0, _, l => l
  | _ + 1, _, [] => []
  | fuel + 1, prevWord, c :: rest =>
    if prevWord then c :: figScanGo fuel (isWordChar c) rest
    else
      match matchFig (c :: rest) with
      | some (d1, d2, r3) =>
        ":numref:`figure-".data ++ d1 ++ '-' :: d2 ++ "`".data ++ figScanGo fuel true r3
      | none => c :: figScanGo fuel (isWordChar c) rest

/-- `InlineElement.replace_inlines`: cross-reference substitution of
`Figure <int>.<int>` citations (the method does not read `self`). -/
def replace_inlines (text : String) : String :=
  String.mk (figScanGo text.data.length false text.data)

/-- `str.replace('-\n', '')`, left to right (fuel as in `hyphenJoinGo`). -/
def removeHyphenNLGo : Nat → List Char → List Char
  | 0, l => l
  | _ + 1, [] => []
  | fuel + 1, c :: rest1 =>
    match c, rest1 with
    | '-', '\n' :: rest => removeHyphenNLGo fuel rest
    | _, _ => c :: removeHyphenNLGo fuel rest1

/-- `str.replace('-\n', '')`. -/
def removeHyphenNL (l : List Char) : List Char := removeHyphenNLGo l.length l

/-- `re.sub(r'([^ ])\n([^ ])', r'\1 \2', text)`, left to right,
non-overlapping (on a failed guard the scan resumes at the newline, which
can itself head a later match; fuel as in `hyphenJoinGo`). -/
def joinNLGo : Nat → List Char → List Char
  | 0, l => l
  | _ + 1, [] => []
  | fuel + 1, c1 :: rest1 =>
    match rest1 with
    | '\n' :: c2 :: rest =>
      if c1 ≠ ' ' ∧ c2 ≠ ' ' then c1 :: ' ' :: c2 :: joinNLGo fuel rest
      else c1 :: joinNLGo fuel rest1
    | _ => c1 :: joinNLGo fuel rest1

/-- `re.sub(r'([^ ])\n([^ ])', r'\1 \2', text)`. -/
def joinNL (l : List Char) : List Char := joinNLGo l.length l

/-- `trim_linebreak`: drop `-\n`, turn an inner newline between two
non-spaces into one space, then drop all remaining newlines. -/
def trim_linebreak (text : String) : String :=
  let t := removeHyphenNL text.data
  let t := joinNL t
  String.mk (t.filter (fun c => c ≠ '\n'))

/-- The `^(\s*)(.*?)(\s*)$` match of `InlineElement.render`: leading
whitespace, trimmed middle, trailing whitespace. -/
def splitEdges (l : List Char) : List Char × List Char × List Char :=
  let pre := l.takeWhile isSpaceChar
  let rest := l.dropWhile isSpaceChar
  let mid := (rest.reverse.dropWhile isSpaceChar).reverse
  let post := (rest.reverse.takeWhile isSpaceChar).reverse
  (pre, mid, post)

/-- `InlineElement.render`: per-style inline markup over the trimmed raw
text; inside a code block (`in_code`) the surrounding whitespace is kept and
code runs are left unwrapped. -/
def InlineElement.render (i : InlineElement) (in_code : Bool := false) : String :=
  let (pre_s, text, post_s) := splitEdges i.raw_text.data
  let text : List Char :=
    match i.style with
    | .normal | .lineblock | .listItem => (replace_inlines (String.mk text)).data
    | .strong => "**".data ++ text ++ "**".data
    | .em => "*".data ++ text ++ "*".data
    | .code =>
      if in_code then text
      else if "http://".data.isPrefixOf text || "https://".data.isPrefixOf text then text
      else "``".data ++ text ++ "``".data
    | .header | .figure | .figureComment | .toc | .part | .h1 | .h2 | .h3 => text
    | _ => text
  if in_code then String.mk (pre_s ++ text ++ post_s) else String.mk text

/-- `require ∈ subjects and all(s in (require, *accepts) for s in subjects)`:
the body of `BlockElement.is_style`. -/
def styleReq (req : Style) (accepts : List Style) (subjects : List Style) : Prop :=
  req ∈ subjects ∧ ∀ s ∈ subjects, s ∈ req :: accepts

instance (req accepts subjects) : Decidable (styleReq req accepts subjects) := by
  unfold styleReq
  exact instDecidableAnd

/-- `all(i.style in styles for i in self.inlines)`: the body of
`BlockElement.is_all_style`. -/
def styleAll (tags : List Style) (subjects : List Style) : Prop :=
  ∀ s ∈ subjects, s ∈ tags

instance (tags subjects) : Decidable (styleAll tags subjects) := by
  unfold styleAll
  exact List.decidableBAll _ _

/-- `BlockElement.is_style` on the list of inline styles. -/
def BlockElement.is_style (b : BlockElement) (req : Style) (accepts : List Style) : Prop :=
  styleReq req accepts (b.inlines.map InlineElement.style)

instance (b : BlockElement) (req accepts) : Decidable (b.is_style req accepts) := by
  unfold BlockElement.is_style
  infer_instance

/-- `BlockElement.is_all_style` on the list of inline styles. -/
def BlockElement.is_all_style (b : BlockElement) (tags : List Style) : Prop :=
  styleAll tags (b.inlines.map InlineElement.style)

instance (b : BlockElement) (tags) : Decidable (b.is_all_style tags) := by
  unfold BlockElement.is_all_style
  infer_instance

/-- `BlockElement.is_header`: explicit `header` style, else no box means not
a header, else `y0 > 610` (61000 hundredths) looks like a page header. -/
def BlockElement.is_header (b : BlockElement) : Bool :=
  if b._style = some .header then true
  else
    match b.item with
    | none => false
    | some box => decide (box.y0 > 61000)

/-- The style-guess chain of the `BlockElement.style` property for a
non-header block, as a function of the list of inline styles present. -/
def guessStyle (subjects : List Style) : Style :=
  if styleReq .code [.strong] subjects then .code
  else if styleReq .figure [.header, .code] subjects then .figure
  else if styleReq .toc [.header, .code] subjects then .toc
  else if styleReq .lineblock [.header, .code] subjects then .lineblock
  else if styleAll [.code] subjects then .code
  else if styleAll [.part] subjects then .part
  else if styleAll [.h1] subjects then .h1
  else if styleAll [.h2] subjects then .h2
  else if styleAll [.h3] subjects then .h3
  else if styleAll [.figureComment] subjects then .figureComment
  else if styleAll [.listItem] subjects then .listItem
  else .paragraph

/-- The `BlockElement.style` property: the explicitly assigned style if any,
else `header` for page headers, else the guess chain over the inline styles. -/
def BlockElement.style (b : BlockElement) : Style :=
  match b._style with
  | some s => s
  | none =>
    if b.is_header then .header
    else guessStyle (b.inlines.map InlineElement.style)

/-- `BlockElement.get_firstline_x`: `list(self.item)[0].x0` (`none` models
the `TypeError` on a sentinel block without a box). -/
def BlockElement.get_firstline_x (b : BlockElement) : Option ℤ :=
  b.item.map Box.firstLineX

/-- `BlockElement.merge`: append the other block's inline runs. -/
def BlockElement.merge (b other : BlockElement) : BlockElement :=
  { b with inlines := b.inlines ++ other.inlines }

/-- Replace the last element of a list, if any (`xs[-1] = ...` patterns). -/
def modifyLast (f : α → α) : List α → List α
  | [] => []
  | a :: rest =>
    match rest with
    | [] => [f a]
    | _ :: _ => a :: modifyLast f rest

/-- `BlockElement.set_inline_style`: open a new inline run unless the last
run already has the requested style. -/
def BlockElement.set_inline_style (b : BlockElement) (style : Style) : BlockElement :=
  match b.inlines.getLast? with
  | none => { b with inlines := [{ style := style }] }
  | some i =>
    if i.style ≠ style then { b with inlines := b.inlines ++ [{ style := style }] }
    else b

/-- `BlockElement.push_text`: append a fragment to the last inline run,
creating a default (`normal`) run if none exists. -/
def BlockElement.push_text (b : BlockElement) (text : String) : BlockElement :=
  match b.inlines with
  | [] => { b with inlines := [{ style := .normal, text_stack := [text] }] }
  | _ :: _ =>
    { b with
      inlines := modifyLast (fun i => { i with text_stack := i.text_stack ++ [text] }) b.inlines }

/-- The accumulator pass of `splitLinesKeep` (current line reversed). -/
def splitLinesGo : List Char → List Char → List (List Char)
  | acc, [] => if acc.isEmpty then [] else [acc.reverse]
  | acc, '\n' :: rest => (acc.reverse ++ ['\n']) :: splitLinesGo [] rest
  | acc, c :: rest => splitLinesGo (c :: acc) rest

/-- Lines of a text split after each `'\n'`, newline kept (the inputs of
`textwrap.indent` here only ever contain `'\n'` line breaks). -/
def splitLinesKeep (l : List Char) : List (List Char) := splitLinesGo [] l

/-- `textwrap.indent(text, '   ')`: three-space prefix on every line that is
not whitespace-only. -/
def indent3 (text : String) : String :=
  String.mk
    (((splitLinesKeep text.data).map
      (fun line => if line.all isSpaceChar then line else "   ".data ++ line)).flatten)

/-- Python `str.rstrip()`. -/
def pyRstrip (s : String) : String :=
  String.mk (s.data.reverse.dropWhile isSpaceChar).reverse

/-- Python `str.strip()`. -/
def pyStrip (s : String) : String :=
  String.mk ((s.data.dropWhile isSpaceChar).reverse.dropWhile isSpaceChar).reverse

/-- `BlockElement.render_code`: parsed-literal when any run is strong, plain
code-block otherwise; runs rendered with `in_code`, indented, right-stripped. -/
def BlockElement.render_code (b : BlockElement) : String :=
  let hdr :=
    if b.inlines.any (fun i => i.style = .strong) then ".. parsed-literal::\n\n"
    else ".. code-block::\n\n"
  let text := String.join (b.inlines.map (fun i => i.render true))
  hdr ++ pyRstrip (indent3 text)

/-- `str.split(sep, maxsplit)` for the separator `':'`. -/
def splitColonAux : Nat → List Char → List (List Char)
  | 0, l => [l]
  | n + 1, l =>
    let pre := l.takeWhile (fun c => c ≠ ':')
    match l.dropWhile (fun c => c ≠ ':') with
    | _ :: tail => pre :: splitColonAux n tail
    | [] => [pre]

/-- `BlockElement.render_figure`: the raw text is split on `':'` with
maxsplit 2 and unpacked into exactly two fields; `none` models the
`ValueError` raised when the unpacking fails (no colon, or two colons). -/
def BlockElement.render_figure (b : BlockElement) : Option String :=
  let text := String.join (b.inlines.map InlineElement.raw_text)
  match splitColonAux 2 text.data with
  | [n0, t0] =>
    let figname :=
      String.mk
        (((pyStrip (String.mk n0)).data.map Char.toLower).map
            (fun c => if c = ' ' then '-' else c) |>.map
          (fun c => if c = '.' then '-' else c))
    let figtitle := pyStrip (String.mk t0)
    some (".. figure:: images/" ++ figname ++ ".*\n   :name: " ++ figname ++ "\n\n" ++
      pyRstrip (indent3 figtitle))
  | _ => none

/-- Python `str.rstrip(':')`. -/
def rstripColon (s : String) : String :=
  String.mk (s.data.reverse.dropWhile (fun c => c = ':')).reverse

/-- Python `str.lstrip(': ')`. -/
def lstripColonSpace (s : String) : String :=
  String.mk (s.data.dropWhile (fun c => c = ':' || c = ' '))

/-- `BlockElement.render_glossary`: `term`-styled runs start a (term,
descriptions) pair, other runs append to the latest pair (`none` models the
`IndexError` when no pair exists yet); pairs render as a glossary directive. -/
def BlockElement.render_glossary (b : BlockElement) : Option String :=
  let step := fun (stack : Option (List (String × List String))) (i : InlineElement) =>
    match stack with
    | none => none
    | some stack =>
      if i.style = .term then some (stack ++ [(rstripColon i.raw_text, [])])
      else
        match stack with
        | [] => none
        | _ :: _ =>
          some (modifyLast (fun p => (p.1, p.2 ++ [lstripColonSpace (i.render false)])) stack)
  match b.inlines.foldl step (some []) with
  | none => none
  | some stack =>
    let texts := stack.map (fun p =>
      let desc := String.intercalate " " (p.2.filter (fun t => pyStrip t ≠ ""))
      let desc := trim_linebreak desc
      p.1 ++ "\n   " ++ desc)
    some (".. glossary::\n\n" ++ indent3 (String.intercalate "\n\n" texts))

/-- The single-space style-fusion step of `BlockElement.render_text`: if the
last stacked run is a lone `' '` and the run before it shares the incoming
run's style, both texts are folded into that earlier run. -/
def fuseStep (rstack : List InlineElement) (i : InlineElement) : List InlineElement :=
  match rstack with
  | i1 :: i2 :: rest =>
    if i1.raw_text = " " ∧ i2.style = i.style then
      { i2 with text_stack := i2.text_stack ++ [i1.raw_text, i.raw_text] } :: rest
    else i :: rstack
  | _ => i :: rstack

/-- `BlockElement.render_text`: page headers render empty; otherwise fuse
single-space runs, render each run, join the nonempty results with single
spaces and normalize line breaks. -/
def BlockElement.render_text (b : BlockElement) : String :=
  if b.is_header then ""
  else
    let stack := (b.inlines.foldl fuseStep []).reverse
    let text :=
      String.intercalate " " ((stack.map (fun i => i.render false)).filter (fun t => t ≠ ""))
    trim_linebreak text

/-- `BlockElement.render`: sentinel blocks (no box) render empty; `code`,
`figure` and `glossary` go to their renderers; all other styles render the
text with the per-style decoration. -/
def BlockElement.render (b : BlockElement) : Option String :=
  match b.item with
  | none => some ""
  | some _ =>
    if b.style = .code then some b.render_code
    else if b.style = .figure then b.render_figure
    else if b.style = .glossary then b.render_glossary
    else
      let text := b.render_text
      some
        (match b.style with
        | .figureComment => ".. figure-comment: " ++ text
        | .toc => ".. toc-comment: " ++ text
        | .part =>
          let bd := String.mk (List.replicate text.length '#')
          bd ++ "\n" ++ text ++ "\n" ++ bd
        | .h1 =>
          let bd := String.mk (List.replicate text.length '=')
          bd ++ "\n" ++ text ++ "\n" ++ bd
        | .h2 => text ++ "\n" ++ String.mk (List.replicate text.length '=')
        | .h3 => text ++ "\n" ++ String.mk (List.replicate text.length '-')
        | .listItem => "* " ++ text
        | _ => text)

/-- `ChapterElement`: the finalized blocks and the page in progress. -/
structure ChapterElement where
  blocks : List BlockElement := []
  page_blocks : List BlockElement := []
  deriving DecidableEq, Repr

/-- `ChapterElement.new_block`: drop a trailing empty working block, then
open a fresh block for the given box. -/
def ChapterElement.new_block (ch : ChapterElement) (box : Box) (page : Option Nat) :
    ChapterElement :=
  let pbs :=
    match ch.page_blocks.getLast? with
    | some lastB => if lastB.inlines = [] then ch.page_blocks.dropLast else ch.page_blocks
    | none => ch.page_blocks
  { ch with page_blocks := pbs ++ [{ item := some box, page := page }] }

/-- The paragraph-continuation condition of `ChapterElement.merge_blocks`:
`prev.style == b.style == 'paragraph' and prev.item is not b.item and
47.9 <= round(b.get_firstline_x(), 1) <= 48.0` (tenths: 479 and 480). -/
def contMergeCond (prev b : BlockElement) : Bool :=
  decide (prev.style = b.style) && decide (b.style = .paragraph) &&
  decide (prev.item ≠ b.item) &&
  (match b.get_firstline_x with
  | some x => decide (479 ≤ pyRound1 x) && decide (pyRound1 x ≤ 480)
  | none => false)

/-- The scan of `ChapterElement.merge_blocks`: `front` holds the emitted
blocks, `last` the block still open for merging (initially the sentinel). -/
def mergeGo (front : List BlockElement) (last : BlockElement) :
    List BlockElement → List BlockElement
  | [] => front ++ [last]
  | b :: rest =>
    if b.is_header then mergeGo front last rest
    else if b.style = .code then
      if last.style = .code then mergeGo front (last.merge b) rest
      else mergeGo (front ++ [last]) b rest
    else
      if contMergeCond last b then mergeGo front (last.merge b) rest
      else mergeGo (front ++ [last]) b rest

/-- `ChapterElement.merge_blocks` as a function on the block list (the
method assigns the result back to `self.blocks`). -/
def mergeBlocksList (bs : List BlockElement) : List BlockElement :=
  mergeGo [] { item := none } bs

/-- `ChapterElement.merge_blocks`. -/
def ChapterElement.merge_blocks (ch : ChapterElement) : ChapterElement :=
  { ch with blocks := mergeBlocksList ch.blocks }

/-- The scan of `ChapterElement.merge_glossaries` (`none` models the
`IndexError` of `b0.inlines[0]` on a block without inline runs). -/
def glossFold : List BlockElement → List BlockElement → Option (List BlockElement)
  | acc, [] => some acc
  | acc, b0 :: rest =>
    match acc.getLast? with
    | none => glossFold (acc ++ [b0]) rest
    | some b1 =>
      if b1.style = .h2 ∧ b1.render_text = "Vocabulary" then
        match b0.inlines with
        | [] => none
        | i :: is2 =>
          glossFold
            (acc ++ [{ b0 with _style := some .glossary, inlines := { i with style := .term } :: is2 }])
            rest
      else if b0.style = .part ∨ b0.style = .h1 ∨ b0.style = .h2 ∨ b0.style = .h3 then
        glossFold (acc ++ [b0]) rest
      else if b1.style = .glossary then
        match b0.inlines with
        | [] => none
        | i :: is2 =>
          glossFold (acc.dropLast ++ [b1.merge { b0 with inlines := { i with style := .term } :: is2 }])
            rest
      else glossFold (acc ++ [b0]) rest

/-- `ChapterElement.merge_glossaries`. -/
def ChapterElement.merge_glossaries (ch : ChapterElement) : Option ChapterElement :=
  (glossFold [] ch.blocks).map (fun bl => { ch with blocks := bl })

/-- `ChapterElement.get_block_style`: style of the last working block
(`none` models the `IndexError` on an empty `page_blocks`). -/
def ChapterElement.get_block_style (ch : ChapterElement) : Option Style :=
  ch.page_blocks.getLast?.map BlockElement.style

/-- `ChapterElement.set_inline_style` (`none` models the `IndexError`). -/
def ChapterElement.set_inline_style (ch : ChapterElement) (style : Style) :
    Option ChapterElement :=
  match ch.page_blocks with
  | [] => none
  | _ :: _ =>
    some { ch with page_blocks := modifyLast (fun b => b.set_inline_style style) ch.page_blocks }

/-- `ChapterElement.push_text` (`none` models the `IndexError`). -/
def ChapterElement.push_text (ch : ChapterElement) (text : String) : Option ChapterElement :=
  match ch.page_blocks with
  | [] => none
  | _ :: _ =>
    some { ch with page_blocks := modifyLast (fun b => b.push_text text) ch.page_blocks }

/-- `ChapterElement.render`: run both merge passes, render every block and
join, each followed by a blank line (`none` models any escaping exception). -/
def ChapterElement.render (ch : ChapterElement) : Option String :=
  let ch1 := ch.merge_blocks
  match ch1.merge_glossaries with
  | none => none
  | some ch2 =>
    match ch2.blocks.mapM BlockElement.render with
    | none => none
    | some texts => some (String.join (texts.map (fun t => t ++ "\n\n")))

/-! ### The visitor's character handling (`Visitor.visit_LTChar`) -/

def fontCODE : String := "BCXPYQ+LetterGothicStd"
def fontHEADING : String := "HDWEEE+StoneSansStd-Medium"
def fontHEADER : String := "TAVVUB+StoneSansStd-Bold"
def fontPARAGRAPH : String := "RAZMOK+BerkeleyStd-Medium"
def fontSTRONG : String := "BCXPYQ+BerkeleyStd-Bold"
def fontCODE_BOLD : String := "NQEGLY+LetterGothicStd-Bold"
def fontEM : String := "VGXSUC+BerkeleyStd-Italic"
def fontFIGURE_C1 : String := "TFAXUR+HelveticaLTStd-BoldCond"
def fontFIGURE_C2 : String := "TFAXUR+HelveticaLTStd-Cond"
def fontFIGURE_C3 : String := "TFAXUR+HelveticaLTStd-BoldCondObl"
def fontFIGURE_C4 : String := "IXTELN+TektonPro-Bold"
def fontFIGURE_C5 : String := "BSQHZM+HelveticaLTStd-CondObl"
def fontFIGURE_C6 : String := "HYERGJ+HelveticaLTStd-Roman"
def fontTOC1 : String := "HDWEEE+StoneSansStd-Medium"
def fontTOC2 : String := "TAVVUB+StoneSansStd-Semibold"
def fontLIST_ITEM : String := "OXPSJB+ZapfDingbatsStd"

/-- The `match item.fontname, round(item.size, 1)` table of
`Visitor.visit_LTChar`, in source order; `none` is the unknown-signature
fall-through case.  Sizes are fixed-point hundredths; the rounded size is in
tenths (so `50` is `500`, `14.5` is `145`). -/
def classify (fontname : String) (size : ℤ) : Option Style :=
  let s := pyRound1 size
  if fontname = fontCODE then some .code
  else if fontname = fontHEADING ∧ s = 500 then some .normal
  else if fontname = fontHEADING ∧ s = 400 then some .part
  else if fontname = fontHEADING ∧ (s = 300 ∨ s = 280) then some .h1
  else if fontname = fontHEADING ∧ s = 180 then some .h2
  else if fontname = fontHEADING ∧ s = 150 then some .h3
  else if fontname = fontHEADING ∧ s = 145 then some .lineblock
  else if fontname = fontHEADING ∧ s = 90 then some .figure
  else if fontname = fontHEADER then some .header
  else if fontname = fontPARAGRAPH then some .normal
  else if fontname = fontSTRONG ∨ fontname = fontCODE_BOLD then some .strong
  else if fontname = fontEM then some .em
  else if fontname = fontFIGURE_C1 ∨ fontname = fontFIGURE_C2 ∨ fontname = fontFIGURE_C3 ∨
      fontname = fontFIGURE_C4 ∨ fontname = fontFIGURE_C5 ∨ fontname = fontFIGURE_C6 then
    some .figureComment
  else if (fontname = fontTOC1 ∨ fontname = fontTOC2) ∧ (s = 120 ∨ s = 100) then some .toc
  else if fontname = fontLIST_ITEM then some .listItem
  else none

/-- `font_warning`: warn once per enclosing line, with the line as the
dedup key.  State is the cache of already-warned line ids; the second
component is the warning emitted by this call (as the line id). -/
def font_warning (cache : List Nat) (lineId : Nat) : List Nat × List Nat :=
  if lineId ∈ cache then (cache, [])
  else (cache ++ [lineId], [lineId])

/-- `Visitor.push_text`: non-breaking spaces become plain spaces. -/
def pushNorm (text : String) : String :=
  String.mk (text.data.map (fun c => if c = Char.ofNat 160 then ' ' else c))

/-- One `LTChar` node as seen by `Visitor.visit_LTChar`: font name, size (in
fixed-point hundredths), the id of the enclosing line, and the text. -/
structure CharEvt where
  fontname : String
  size : ℤ
  lineId : Nat
  text : String
  deriving Repr

/-- `Visitor.visit_LTChar`: classify, fall back to `normal` with a
per-line-deduplicated warning on an unknown signature (unless the current
block is a header), then push the text.  Returns the updated chapter, the
warning cache and the warnings emitted; `none` models an `IndexError`
escaping when no current block exists. -/
def visit_LTChar (ch : ChapterElement) (cache : List Nat) (e : CharEvt) :
    Option (ChapterElement × List Nat × List Nat) :=
  match classify e.fontname e.size with
  | some st =>
    match ch.set_inline_style st with
    | none => none
    | some ch1 =>
      match ch1.push_text (pushNorm e.text) with
      | none => none
      | some ch2 => some (ch2, cache, [])
  | none =>
    match ch.get_block_style with
    | none => none
    | some bs =>
      let cw := if bs ≠ .header then font_warning cache e.lineId else (cache, [])
      match ch.set_inline_style .normal with
      | none => none
      | some ch1 =>
        match ch1.push_text (pushNorm e.text) with
        | none => none
        | some ch2 => some (ch2, cw.1, cw.2)

/-- A run of `visit_LTChar` over a sequence of characters, accumulating the
emitted warnings. -/
def visitChars : ChapterElement → List Nat → List CharEvt →
    Option (ChapterElement × List Nat × List Nat)
  | ch, cache, [] => some (ch, cache, [])
  | ch, cache, e :: rest =>
    match visit_LTChar ch cache e with
    | none => none
    | some (ch1, cache1, w1) =>
      match visitChars ch1 cache1 rest with
      | none => none
      | some (ch2, cache2, w2) => some (ch2, cache2, w1 ++ w2)

/-! ### Shared lemmas about the embedding -/

set_option maxHeartbeats 1000000 in
theorem guessStyle_ne_header (S : List Style) : guessStyle S ≠ .header := by
  unfold guessStyle
  split_ifs <;> decide

theorem is_header_true_y0 {b : BlockElement} {box : Box} (hitem : b.item = some box)
    (hy : box.y0 > 61000) : b.is_header = true := by
  simp [BlockElement.is_header, hitem, hy]

theorem is_header_false_of {b : BlockElement} {box : Box} (hst : b._style = none)
    (hitem : b.item = some box) (hy : ¬box.y0 > 61000) : b.is_header = false := by
  simp [BlockElement.is_header, hst, hitem, hy]

theorem is_header_false_none {b : BlockElement} (hst : b._style = none)
    (hitem : b.item = none) : b.is_header = false := by
  simp [BlockElement.is_header, hst, hitem]

theorem style_of_none {b : BlockElement} (hst : b._style = none) (hh : b.is_header = false) :
    b.style = guessStyle (b.inlines.map InlineElement.style) := by
  simp [BlockElement.style, hst, hh]

theorem style_of_header {b : BlockElement} (hst : b._style = none) (hh : b.is_header = true) :
    b.style = .header := by
  simp [BlockElement.style, hst, hh]

theorem style_ne_header_is_header_false {b : BlockElement} (hst : b._style = none)
    (hs : b.style ≠ .header) : b.is_header = false := by
  by_cases h : b.is_header
  · exact absurd (style_of_header hst h) hs
  · simpa using h

theorem style_header_iff {b : BlockElement} {box : Box} (hst : b._style = none)
    (hitem : b.item = some box) : b.style = .header ↔ box.y0 > 61000 := by
  constructor
  · intro h
    by_contra hy
    have hh := is_header_false_of hst hitem hy
    exact guessStyle_ne_header _ ((style_of_none hst hh).symm.trans h)
  · intro hy
    exact style_of_header hst (is_header_true_y0 hitem hy)

theorem style_empty_code {b : BlockElement} (hst : b._style = none) (hinl : b.inlines = [])
    (hh : b.is_header = false) : b.style = .code := by
  rw [style_of_none hst hh, hinl]
  decide

theorem render_of_item_none {b : BlockElement} (h : b.item = none) : b.render = some "" := by
  simp [BlockElement.render, h]

end TextConv

namespace TextConv

/-! ### C8: hyphen rejoin in `raw_text` -/

/-- C8: for every inline run (whatever its style), the derived raw text of
the fragments `"Self-"`, `" "`, `"Taught"` pushed across a line break is
`"Self-Taught"`, never `"Self- Taught"`: the hyphen split is rejoined
because both sides are word characters. -/
theorem c8_hyphen_rejoin (s : Style) :
    InlineElement.raw_text { style := s, text_stack := ["Self-", " ", "Taught"] } =
      "Self-Taught" ∧
    InlineElement.raw_text { style := s, text_stack := ["Self-", " ", "Taught"] } ≠
      "Self- Taught" := by
  cases s <;> exact ⟨by decide, by decide⟩

/-! ### C9: an unstyled block with no inline runs -/

/-- C9 (amended): a `BlockElement` with no inline runs and no explicitly
assigned style has inferred style `code` — provided it is not a page header
(`is_header` is checked first in the guess chain and wins otherwise). -/
theorem c9_empty_block_style_code (b : BlockElement) (h1 : b.inlines = [])
    (h2 : b._style = none) (h3 : b.is_header = false) : b.style = .code :=
  style_empty_code h2 h1 h3

/-- C9 counterexample to the unamended claim: an empty, never-explicitly-styled
block whose box sits above the page-header threshold has inferred style
`header`, not `code`. -/
def c9Block : BlockElement := { item := some ⟨0, 0, 70000, 0⟩ }

theorem c9_counterexample :
    c9Block.inlines = [] ∧ c9Block._style = none ∧
    c9Block.style = .header ∧ c9Block.style ≠ .code := by
  refine ⟨rfl, rfl, by decide, by decide⟩

theorem c9_witness :
    ({ item := some ⟨0, 0, 30000, 0⟩ } : BlockElement).style = .code :=
  c9_empty_block_style_code { item := some ⟨0, 0, 30000, 0⟩ } rfl rfl (by decide)

/-! ### C10: operations on an empty working-block list -/

/-- C10: `get_block_style`, `set_inline_style` and `push_text` on a chapter
whose `page_blocks` is empty all fail (`none` models the `IndexError` of
`page_blocks[-1]`), and so does every character visit — with a known or an
unknown font signature alike — so an existing current block is a
precondition of `visit_LTChar`. -/
theorem c10_empty_page_blocks (ch : ChapterElement) (h : ch.page_blocks = [])
    (st : Style) (txt : String) (cache : List Nat) (e : CharEvt) :
    ch.get_block_style = none ∧ ch.set_inline_style st = none ∧
    ch.push_text txt = none ∧ visit_LTChar ch cache e = none := by
  have hget : ch.get_block_style = none := by simp [ChapterElement.get_block_style, h]
  have hset : ∀ st', ch.set_inline_style st' = none := by
    intro st'
    simp [ChapterElement.set_inline_style, h]
  have hpush : ch.push_text txt = none := by simp [ChapterElement.push_text, h]
  refine ⟨hget, hset st, hpush, ?_⟩
  unfold visit_LTChar
  cases hcl : classify e.fontname e.size with
  | some st' => simp [hset st']
  | none => simp [hget]

theorem c10_witness :
    ChapterElement.get_block_style {} = none ∧
    ChapterElement.set_inline_style {} .code = none ∧
    ChapterElement.push_text {} "f" = none ∧
    visit_LTChar {} [] ⟨"BCXPYQ+LetterGothicStd", 900, 0, "f"⟩ = none :=
  c10_empty_page_blocks {} rfl .code "f" [] ⟨"BCXPYQ+LetterGothicStd", 900, 0, "f"⟩

/-! ### Characterizing the style guess, for the merge-pass lemmas -/

set_option maxHeartbeats 1000000 in
theorem guess_code_iff (S : List Style) :
    guessStyle S = .code ↔ (S = [] ∨ styleReq .code [.strong] S) := by
  unfold guessStyle
  split_ifs with h1 h2 h3 h4 h5 h6 h7 h8 h9 h10 h11
  · exact ⟨fun _ => Or.inr h1, fun _ => rfl⟩
  · refine ⟨fun hEq => absurd hEq (by decide), ?_⟩
    rintro (rfl | hreq)
    · exact absurd h2.1 (List.not_mem_nil _)
    · exact absurd hreq h1
  · refine ⟨fun hEq => absurd hEq (by decide), ?_⟩
    rintro (rfl | hreq)
    · exact absurd h3.1 (List.not_mem_nil _)
    · exact absurd hreq h1
  · refine ⟨fun hEq => absurd hEq (by decide), ?_⟩
    rintro (rfl | hreq)
    · exact absurd h4.1 (List.not_mem_nil _)
    · exact absurd hreq h1
  · refine ⟨fun _ => ?_, fun _ => rfl⟩
    left
    by_contra hS
    obtain ⟨s0, hs0⟩ := List.exists_mem_of_ne_nil S hS
    have hs0c : s0 = .code := by simpa using h5 s0 hs0
    refine h1 ⟨hs0c ▸ hs0, fun s hs => ?_⟩
    have hsc : s = .code := by simpa using h5 s hs
    simp [hsc]
  all_goals {
    refine ⟨fun hEq => absurd hEq (by decide), ?_⟩
    rintro (rfl | hreq)
    · exact absurd (fun s hs => absurd hs (List.not_mem_nil _)) h5
    · exact absurd hreq h1 }

set_option maxHeartbeats 1000000 in
theorem guess_para_iff (S : List Style) :
    guessStyle S = .paragraph ↔
      (¬styleReq .code [.strong] S ∧ ¬styleReq .figure [.header, .code] S ∧
       ¬styleReq .toc [.header, .code] S ∧ ¬styleReq .lineblock [.header, .code] S ∧
       ¬styleAll [.code] S ∧ ¬styleAll [.part] S ∧ ¬styleAll [.h1] S ∧
       ¬styleAll [.h2] S ∧ ¬styleAll [.h3] S ∧ ¬styleAll [.figureComment] S ∧
       ¬styleAll [.listItem] S) := by
  unfold guessStyle
  split_ifs with h1 h2 h3 h4 h5 h6 h7 h8 h9 h10 h11
  · exact iff_of_false (by decide) (by tauto)
  · exact iff_of_false (by decide) (by tauto)
  · exact iff_of_false (by decide) (by tauto)
  · exact iff_of_false (by decide) (by tauto)
  · exact iff_of_false (by decide) (by tauto)
  · exact iff_of_false (by decide) (by tauto)
  · exact iff_of_false (by decide) (by tauto)
  · exact iff_of_false (by decide) (by tauto)
  · exact iff_of_false (by decide) (by tauto)
  · exact iff_of_false (by decide) (by tauto)
  · exact iff_of_false (by decide) (by tauto)
  · exact iff_of_true rfl ⟨h1, h2, h3, h4, h5, h6, h7, h8, h9, h10, h11⟩

theorem styleReq_append_elim {req : Style} {acc : List Style} {S1 S2 : List Style}
    (h : styleReq req acc (S1 ++ S2)) : styleReq req acc S1 ∨ styleReq req acc S2 := by
  rcases List.mem_append.mp h.1 with h1 | h2
  · exact Or.inl ⟨h1, fun s hs => h.2 s (List.mem_append_left _ hs)⟩
  · exact Or.inr ⟨h2, fun s hs => h.2 s (List.mem_append_right _ hs)⟩

theorem styleAll_append_elim {tags : List Style} {S1 S2 : List Style}
    (h : styleAll tags (S1 ++ S2)) : styleAll tags S1 ∧ styleAll tags S2 :=
  ⟨fun s hs => h s (List.mem_append_left _ hs), fun s hs => h s (List.mem_append_right _ hs)⟩

theorem guess_code_append {S1 S2 : List Style} (h1 : guessStyle S1 = .code)
    (h2 : guessStyle S2 = .code) : guessStyle (S1 ++ S2) = .code := by
  rw [guess_code_iff] at h1 h2 ⊢
  rcases h1 with rfl | hr1
  · simpa using h2
  rcases h2 with rfl | hr2
  · rw [List.append_nil]
    exact Or.inr hr1
  · right
    refine ⟨List.mem_append_left _ hr1.1, fun s hs => ?_⟩
    rcases List.mem_append.mp hs with h | h
    exacts [hr1.2 s h, hr2.2 s h]

theorem guess_para_append {S1 S2 : List Style} (h1 : guessStyle S1 = .paragraph)
    (h2 : guessStyle S2 = .paragraph) : guessStyle (S1 ++ S2) = .paragraph := by
  rw [guess_para_iff] at h1 h2 ⊢
  obtain ⟨a1, b1, c1, d1, e1, f1, g1, i1, j1, k1, l1⟩ := h1
  obtain ⟨a2, b2, c2, d2, e2, f2, g2, i2, j2, k2, l2⟩ := h2
  refine ⟨?_, ?_, ?_, ?_, ?_, ?_, ?_, ?_, ?_, ?_, ?_⟩
  · intro h
    rcases styleReq_append_elim h with h | h
    exacts [a1 h, a2 h]
  · intro h
    rcases styleReq_append_elim h with h | h
    exacts [b1 h, b2 h]
  · intro h
    rcases styleReq_append_elim h with h | h
    exacts [c1 h, c2 h]
  · intro h
    rcases styleReq_append_elim h with h | h
    exacts [d1 h, d2 h]
  · exact fun h => e1 (styleAll_append_elim h).1
  · exact fun h => f1 (styleAll_append_elim h).1
  · exact fun h => g1 (styleAll_append_elim h).1
  · exact fun h => i1 (styleAll_append_elim h).1
  · exact fun h => j1 (styleAll_append_elim h).1
  · exact fun h => k1 (styleAll_append_elim h).1
  · exact fun h => l1 (styleAll_append_elim h).1

theorem merge_item (b1 b2 : BlockElement) : (b1.merge b2).item = b1.item := rfl

theorem merge_style_field (b1 b2 : BlockElement) : (b1.merge b2)._style = b1._style := rfl

theorem merge_page (b1 b2 : BlockElement) : (b1.merge b2).page = b1.page := rfl

theorem merge_inlines (b1 b2 : BlockElement) :
    (b1.merge b2).inlines = b1.inlines ++ b2.inlines := rfl

theorem is_header_merge (b1 b2 : BlockElement) : (b1.merge b2).is_header = b1.is_header := rfl

/-- Merging two unstyled blocks that both read as `code` (or both as
`paragraph`) yields a block that still reads as that style. -/
theorem merge_style_stable {b1 b2 : BlockElement} {t : Style} (h1s : b1._style = none)
    (h2s : b2._style = none) (ht : t = .code ∨ t = .paragraph)
    (h1 : b1.style = t) (h2 : b2.style = t) : (b1.merge b2).style = t := by
  have hth : t ≠ .header := by rcases ht with rfl | rfl <;> decide
  have hh1 : b1.is_header = false :=
    style_ne_header_is_header_false h1s (by rw [h1]; exact hth)
  have hh2 : b2.is_header = false :=
    style_ne_header_is_header_false h2s (by rw [h2]; exact hth)
  have hmh : (b1.merge b2).is_header = false := by rw [is_header_merge]; exact hh1
  have hms : (b1.merge b2)._style = none := by rw [merge_style_field]; exact h1s
  have h1g : guessStyle (b1.inlines.map InlineElement.style) = t := by
    rw [← style_of_none h1s hh1]; exact h1
  have h2g : guessStyle (b2.inlines.map InlineElement.style) = t := by
    rw [← style_of_none h2s hh2]; exact h2
  rw [style_of_none hms hmh, merge_inlines, List.map_append]
  rcases ht with rfl | rfl
  · exact guess_code_append h1g h2g
  · exact guess_para_append h1g h2g

/-! ### C2: idempotence of the continuation/code merge pass -/

/-- The pair (`prev`, `b`) triggers neither merge of `merge_blocks`. -/
def noMergePair (p b : BlockElement) : Prop :=
  ¬(p.style = .code ∧ b.style = .code) ∧ contMergeCond p b = false

theorem contMergeCond_congr {p p' b b' : BlockElement} (hps : p'.style = p.style)
    (hpi : p'.item = p.item) (hbs : b'.style = b.style) (hbi : b'.item = b.item) :
    contMergeCond p' b' = contMergeCond p b := by
  simp [contMergeCond, hps, hpi, hbs, hbi, BlockElement.get_firstline_x]

theorem contMergeCond_false_of_code {p b : BlockElement} (hb : b.style = .code) :
    contMergeCond p b = false := by
  simp [contMergeCond, hb]

theorem contMergeCond_true_elim {p b : BlockElement} (h : contMergeCond p b = true) :
    p.style = b.style ∧ b.style = .paragraph := by
  unfold contMergeCond at h
  rw [Bool.and_eq_true, Bool.and_eq_true, Bool.and_eq_true] at h
  obtain ⟨⟨⟨hA, hB⟩, -⟩, -⟩ := h
  exact ⟨of_decide_eq_true hA, of_decide_eq_true hB⟩

theorem noMergePair_congr_right {p q q' : BlockElement} (hs : q'.style = q.style)
    (hi : q'.item = q.item) (h : noMergePair p q) : noMergePair p q' := by
  refine ⟨fun hx => h.1 ⟨hx.1, hs.symm.trans hx.2⟩, ?_⟩
  rw [contMergeCond_congr rfl rfl hs hi]
  exact h.2

theorem chain'_concat_of {l : List BlockElement} {last b : BlockElement}
    (hc : List.Chain' noMergePair (l ++ [last])) (hn : noMergePair last b) :
    List.Chain' noMergePair ((l ++ [last]) ++ [b]) := by
  rw [List.chain'_append]
  refine ⟨hc, List.chain'_singleton b, ?_⟩
  intro x hx y hy
  rw [List.getLast?_concat] at hx
  simp at hx hy
  subst hx
  subst hy
  exact hn

theorem chain'_replace_last {l : List BlockElement} {last last' : BlockElement}
    (hc : List.Chain' noMergePair (l ++ [last]))
    (hrepl : ∀ p, noMergePair p last → noMergePair p last') :
    List.Chain' noMergePair (l ++ [last']) := by
  rw [List.chain'_append] at hc ⊢
  obtain ⟨h1, -, h3⟩ := hc
  refine ⟨h1, List.chain'_singleton _, ?_⟩
  intro x hx y hy
  simp at hy
  subst hy
  exact hrepl x (h3 x hx last (by simp))

/-- Invariant of the blocks emitted by `merge_blocks` (beyond the head). -/
def tidy (b : BlockElement) : Prop := b._style = none ∧ b.is_header = false

/-- Invariant of the head of the `merge_blocks` output: the sentinel, which
only ever absorbs `code`-reading inline runs. -/
def sentinelish (b : BlockElement) : Prop :=
  b.item = none ∧ b._style = none ∧ b.page = none ∧ b.style = .code

/-- Shape of any `mergeGo` state/output list: a sentinel-like head, tidy
followers, and no adjacent pair that a further scan would merge. -/
def goodOut (L : List BlockElement) : Prop :=
  ∃ s rest, L = s :: rest ∧ sentinelish s ∧ (∀ b ∈ rest, tidy b) ∧
    List.Chain' noMergePair L

theorem goodOut_last_fields {front : List BlockElement} {last : BlockElement}
    (hg : goodOut (front ++ [last])) : last._style = none ∧ last.is_header = false := by
  obtain ⟨s, rest, hL, hsent, htidy, -⟩ := hg
  cases front with
  | nil =>
    simp at hL
    obtain ⟨rfl, -⟩ := hL
    exact ⟨hsent.2.1, is_header_false_none hsent.2.1 hsent.1⟩
  | cons f front' =>
    have hmem : last ∈ rest := by
      rw [List.cons_append, List.cons.injEq] at hL
      rw [← hL.2]
      simp
    exact ⟨(htidy last hmem).1, (htidy last hmem).2⟩

theorem goodOut_merge {front : List BlockElement} {last b : BlockElement}
    (hg : goodOut (front ++ [last])) (hstyle_eq : (last.merge b).style = last.style) :
    goodOut (front ++ [last.merge b]) := by
  obtain ⟨s, rest, hL, hsent, htidy, hchain⟩ := hg
  have hlast := goodOut_last_fields ⟨s, rest, hL, hsent, htidy, hchain⟩
  cases front with
  | nil =>
    simp at hL
    obtain ⟨rfl, rfl⟩ := hL
    refine ⟨last.merge b, [], rfl, ?_, by simp, List.chain'_singleton _⟩
    refine ⟨?_, ?_, ?_, ?_⟩
    · rw [merge_item]; exact hsent.1
    · rw [merge_style_field]; exact hsent.2.1
    · rw [merge_page]; exact hsent.2.2.1
    · rw [hstyle_eq]; exact hsent.2.2.2
  | cons f front' =>
    rw [List.cons_append, List.cons.injEq] at hL
    obtain ⟨rfl, hrest⟩ := hL
    refine ⟨f, front' ++ [last.merge b], by simp, hsent, ?_, ?_⟩
    · intro x hx
      rcases List.mem_append.mp hx with hx | hx
      · exact htidy x (by rw [← hrest]; exact List.mem_append_left _ hx)
      · have hxe : x = last.merge b := by simpa using hx
        subst hxe
        refine ⟨by rw [merge_style_field]; exact hlast.1, ?_⟩
        rw [is_header_merge]
        exact hlast.2
    · have hch : List.Chain' noMergePair ((f :: front') ++ [last]) := hchain
      exact chain'_replace_last hch
        (fun p hp => noMergePair_congr_right hstyle_eq (merge_item _ _) hp)

theorem goodOut_append {front : List BlockElement} {last b : BlockElement}
    (hg : goodOut (front ++ [last])) (hbst : b._style = none) (hbh : b.is_header = false)
    (hn : noMergePair last b) : goodOut ((front ++ [last]) ++ [b]) := by
  obtain ⟨s, rest, hL, hsent, htidy, hchain⟩ := hg
  refine ⟨s, rest ++ [b], by rw [hL]; simp, hsent, ?_, ?_⟩
  · intro x hx
    rcases List.mem_append.mp hx with hx | hx
    · exact htidy x hx
    · have hxe : x = b := by simpa using hx
      subst hxe
      exact ⟨hbst, hbh⟩
  · exact chain'_concat_of hchain hn

theorem mergeGo_good (bs : List BlockElement) :
    ∀ front last, (∀ b ∈ bs, b._style = none) →
    goodOut (front ++ [last]) → goodOut (mergeGo front last bs) := by
  induction bs with
  | nil =>
    intro front last _ hg
    simpa [mergeGo] using hg
  | cons b bs ih =>
    intro front last hbs hg
    have hbst : b._style = none := hbs b (by simp)
    have hbs' : ∀ x ∈ bs, x._style = none := fun x hx => hbs x (by simp [hx])
    have hlast := goodOut_last_fields hg
    by_cases hbh : b.is_header = true
    · have heq : mergeGo front last (b :: bs) = mergeGo front last bs := by
        simp [mergeGo, hbh]
      rw [heq]
      exact ih front last hbs' hg
    · have hbh' : b.is_header = false := by simpa using hbh
      by_cases hbc : b.style = .code
      · by_cases hlc : last.style = .code
        · have heq : mergeGo front last (b :: bs) = mergeGo front (last.merge b) bs := by
            simp [mergeGo, hbh', hbc, hlc]
          rw [heq]
          refine ih front (last.merge b) hbs' (goodOut_merge hg ?_)
          rw [hlc]
          exact merge_style_stable hlast.1 hbst (Or.inl rfl) hlc hbc
        · have heq : mergeGo front last (b :: bs) = mergeGo (front ++ [last]) b bs := by
            simp [mergeGo, hbh', hbc, hlc]
          rw [heq]
          refine ih (front ++ [last]) b hbs' (goodOut_append hg hbst hbh' ?_)
          exact ⟨fun hx => hlc hx.1, contMergeCond_false_of_code hbc⟩
      · by_cases hcond : contMergeCond last b = true
        · have heq : mergeGo front last (b :: bs) = mergeGo front (last.merge b) bs := by
            simp [mergeGo, hbh', hbc, hcond]
          rw [heq]
          obtain ⟨hpeq, hpara⟩ := contMergeCond_true_elim hcond
          have hlp : last.style = .paragraph := hpeq.trans hpara
          refine ih front (last.merge b) hbs' (goodOut_merge hg ?_)
          rw [hlp]
          exact merge_style_stable hlast.1 hbst (Or.inr rfl) hlp hpara
        · have hcond' : contMergeCond last b = false := by simpa using hcond
          have heq : mergeGo front last (b :: bs) = mergeGo (front ++ [last]) b bs := by
            simp [mergeGo, hbh', hbc, hcond']
          rw [heq]
          refine ih (front ++ [last]) b hbs' (goodOut_append hg hbst hbh' ?_)
          exact ⟨fun hx => hbc hx.2, hcond'⟩

theorem mergeGo_reproduce (ts : List BlockElement) :
    ∀ front last, (∀ x ∈ ts, x.is_header = false) →
    List.Chain' noMergePair (last :: ts) →
    mergeGo front last ts = front ++ last :: ts := by
  induction ts with
  | nil =>
    intro front last _ _
    simp [mergeGo]
  | cons b ts ih =>
    intro front last hh hc
    have hbh : b.is_header = false := hh b (by simp)
    obtain ⟨hnm, hc'⟩ := List.chain'_cons.mp hc
    have hres : mergeGo (front ++ [last]) b ts = (front ++ [last]) ++ b :: ts :=
      ih (front ++ [last]) b (fun x hx => hh x (by simp [hx])) hc'
    by_cases hbc : b.style = .code
    · have hlc : last.style ≠ .code := fun hlc => hnm.1 ⟨hlc, hbc⟩
      have heq : mergeGo front last (b :: ts) = mergeGo (front ++ [last]) b ts := by
        simp [mergeGo, hbh, hbc, hlc]
      rw [heq, hres]
      simp
    · have heq : mergeGo front last (b :: ts) = mergeGo (front ++ [last]) b ts := by
        simp [mergeGo, hbh, hbc, hnm.2]
      rw [heq, hres]
      simp

theorem sentinel_style_code : ({ item := none } : BlockElement).style = .code := by decide

/-- C2: the continuation/code merge pass (`ChapterElement.merge_blocks`, as
the function `mergeBlocksList` on the block list) is idempotent on every
finalized block sequence — blocks accumulated by the visitor, which always
carry a layout box and whose explicit `_style` is never assigned before the
merge passes run. -/
theorem c2_merge_blocks_idempotent (bs : List BlockElement)
    (h : ∀ b ∈ bs, b._style = none ∧ b.item ≠ none) :
    mergeBlocksList (mergeBlocksList bs) = mergeBlocksList bs := by
  have hstyles : ∀ b ∈ bs, b._style = none := fun b hb => (h b hb).1
  have hgood0 : goodOut ([] ++ [({ item := none } : BlockElement)]) :=
    ⟨{ item := none }, [], rfl, ⟨rfl, rfl, rfl, sentinel_style_code⟩, by simp,
      List.chain'_singleton _⟩
  have hgood := mergeGo_good bs [] { item := none } hstyles hgood0
  obtain ⟨s, rest, hL, hsent, htidy, hchain⟩ := hgood
  unfold mergeBlocksList
  rw [hL]
  have hsh : s.is_header = false := is_header_false_none hsent.2.1 hsent.1
  have step : mergeGo [] ({ item := none } : BlockElement) (s :: rest) =
      mergeGo [] (BlockElement.merge { item := none } s) rest := by
    simp [mergeGo, hsh, hsent.2.2.2, sentinel_style_code]
  have hms : BlockElement.merge { item := none } s = s := by
    obtain ⟨hi, hst, hp, -⟩ := hsent
    cases s with
    | mk it st inl pg =>
      simp only at hi hst hp
      subst hi
      subst hst
      subst hp
      simp [BlockElement.merge]
  rw [step, hms]
  rw [hL] at hchain
  have hrest_h : ∀ x ∈ rest, x.is_header = false := fun x hx => (htidy x hx).2
  rw [mergeGo_reproduce rest [] s hrest_h hchain]
  simp

/-! ### Step equations for `mergeGo`, shared by several claims -/

theorem mergeGo_nil (front : List BlockElement) (last : BlockElement) :
    mergeGo front last [] = front ++ [last] := by
  simp [mergeGo]

theorem mergeGo_skip_step {b : BlockElement} (front : List BlockElement) (last : BlockElement)
    (rest : List BlockElement) (h : b.is_header = true) :
    mergeGo front last (b :: rest) = mergeGo front last rest := by
  simp [mergeGo, h]

theorem mergeGo_code_merge_step {b last : BlockElement} (front rest : List BlockElement)
    (hbh : b.is_header = false) (hbc : b.style = .code) (hlc : last.style = .code) :
    mergeGo front last (b :: rest) = mergeGo front (last.merge b) rest := by
  simp [mergeGo, hbh, hbc, hlc]

theorem mergeGo_code_append_step {b last : BlockElement} (front rest : List BlockElement)
    (hbh : b.is_header = false) (hbc : b.style = .code) (hlc : last.style ≠ .code) :
    mergeGo front last (b :: rest) = mergeGo (front ++ [last]) b rest := by
  simp [mergeGo, hbh, hbc, hlc]

theorem mergeGo_text_merge_step {b last : BlockElement} (front rest : List BlockElement)
    (hbh : b.is_header = false) (hbc : b.style ≠ .code) (hcond : contMergeCond last b = true) :
    mergeGo front last (b :: rest) = mergeGo front (last.merge b) rest := by
  simp [mergeGo, hbh, hbc, hcond]

theorem mergeGo_text_append_step {b last : BlockElement} (front rest : List BlockElement)
    (hbh : b.is_header = false) (hbc : b.style ≠ .code) (hcond : contMergeCond last b = false) :
    mergeGo front last (b :: rest) = mergeGo (front ++ [last]) b rest := by
  simp [mergeGo, hbh, hbc, hcond]

/-- C2 witness: a two-paragraph chapter satisfying the hypotheses. -/
theorem c2_witness :
    mergeBlocksList (mergeBlocksList
      [{ item := some ⟨1, 4800, 50000, 4800⟩,
         inlines := [{ style := .normal, text_stack := ["a"] }] },
       { item := some ⟨2, 4800, 48000, 4800⟩,
         inlines := [{ style := .normal, text_stack := ["b"] }] }]) =
    mergeBlocksList
      [{ item := some ⟨1, 4800, 50000, 4800⟩,
         inlines := [{ style := .normal, text_stack := ["a"] }] },
       { item := some ⟨2, 4800, 48000, 4800⟩,
         inlines := [{ style := .normal, text_stack := ["b"] }] }] :=
  c2_merge_blocks_idempotent _ (by decide)

/-! ### C1: page-header suppression in `render` -/

/-- C1 (amended): a finalized block whose box sits above the page-header
threshold (`y0 > 610`) renders to the empty string provided its style is
unassigned or assigned one of `header`/`paragraph`/`lineblock` (the styles
that `render` passes through `render_text` undecorated); an explicitly
assigned `code`/`figure`/`glossary` style bypasses the suppression, and the
heading/comment/list styles decorate the empty text. -/
theorem c1_header_suppression (b : BlockElement) (box : Box) (hitem : b.item = some box)
    (hy : box.y0 > 61000)
    (hst : b._style = none ∨ b._style = some .header ∨ b._style = some .paragraph ∨
      b._style = some .lineblock) :
    b.render = some "" := by
  have hh : b.is_header = true := is_header_true_y0 hitem hy
  have hrt : b.render_text = "" := by simp [BlockElement.render_text, hh]
  rcases hst with h | h | h | h
  · have hs : b.style = .header := style_of_header h hh
    simp [BlockElement.render, hitem, hs, hrt]
  · have hs : b.style = .header := by simp [BlockElement.style, h]
    simp [BlockElement.render, hitem, hs, hrt]
  · have hs : b.style = .paragraph := by simp [BlockElement.style, h]
    simp [BlockElement.render, hitem, hs, hrt]
  · have hs : b.style = .lineblock := by simp [BlockElement.style, h]
    simp [BlockElement.render, hitem, hs, hrt]

/-- C1 counterexample to the unamended claim: a block above the header
threshold whose style was explicitly assigned `code` renders a code-block
directive, not the empty string (`render` dispatches on the style before
`render_text` ever consults `is_header`). -/
def c1Block : BlockElement :=
  { item := some ⟨7, 6000, 70000, 6000⟩, _style := some .code,
    inlines := [{ style := .code, text_stack := ["x"] }] }

theorem c1_counterexample :
    c1Block.item = some ⟨7, 6000, 70000, 6000⟩ ∧ ((70000 : ℤ) > 61000) ∧
    c1Block._style = some .code ∧
    c1Block.render = some ".. code-block::\n\n   x" ∧ c1Block.render ≠ some "" :=
  ⟨rfl, by decide, rfl, by decide, by decide⟩

theorem c1_witness :
    BlockElement.render
      { item := some ⟨7, 6000, 70000, 6000⟩, _style := some .paragraph,
        inlines := [{ style := .normal, text_stack := ["Chapter 3"] }] } = some "" :=
  c1_header_suppression _ ⟨7, 6000, 70000, 6000⟩ rfl (by decide)
    (Or.inr (Or.inr (Or.inl rfl)))

/-! ### C6: malformed figure caption -/

theorem splitColon_of_no_colon {l : List Char} (h : ∀ c ∈ l, c ≠ ':') (n : Nat) :
    splitColonAux (n + 1) l = [l] := by
  have ht : l.takeWhile (fun c => c ≠ ':') = l :=
    List.takeWhile_eq_self_iff.mpr (fun a ha => by simpa using h a ha)
  have hd : l.dropWhile (fun c => c ≠ ':') = [] :=
    List.dropWhile_eq_nil_iff.mpr (fun a ha => by simpa using h a ha)
  simp only [splitColonAux]
  rw [ht, hd]

/-- C6: rendering a `figure` block whose raw text contains no colon is not
handled defensively: the two-field unpacking of `text.split(':', 2)` fails,
modelled by `render_figure` (and hence `render` for that block) returning
`none` — the uncaught `ValueError` of the source. -/
theorem c6_figure_missing_colon (b : BlockElement) (box : Box)
    (hcolon : ∀ c ∈ (String.join (b.inlines.map InlineElement.raw_text)).data, c ≠ ':')
    (hst : b._style = some .figure) (hitem : b.item = some box) :
    b.render_figure = none ∧ b.render = none := by
  have hrf : b.render_figure = none := by
    have h2 : splitColonAux 2 (String.join (b.inlines.map InlineElement.raw_text)).data =
        [(String.join (b.inlines.map InlineElement.raw_text)).data] :=
      splitColon_of_no_colon hcolon 1
    simp only [BlockElement.render_figure]
    rw [h2]
  refine ⟨hrf, ?_⟩
  have hs : b.style = .figure := by simp [BlockElement.style, hst]
  simp [BlockElement.render, hitem, hs, hrf]

def c6Block : BlockElement :=
  { item := some ⟨3, 4800, 30000, 4800⟩, _style := some .figure,
    inlines := [{ style := .figure, text_stack := ["Figure 32 no separator"] }] }

theorem c6_witness : c6Block.render_figure = none ∧ c6Block.render = none :=
  c6_figure_missing_colon c6Block ⟨3, 4800, 30000, 4800⟩ (by decide) rfl rfl

/-! ### C4: the paragraph-continuation merge band -/

/-- C4: two adjacent unstyled `paragraph` blocks from distinct source boxes
merge exactly when the later block's first-line x-offset, rounded to one
decimal, lies in the band [47.9, 48.0] (479–480 tenths); the merged block's
inline runs are the concatenation of both blocks' runs, so its rendered
text joins both under the normal inline-join rules. -/
theorem c4_continuation_merge (p1 p2 : BlockElement) (box1 box2 : Box)
    (h1 : p1._style = none) (h2 : p2._style = none)
    (hi1 : p1.item = some box1) (hi2 : p2.item = some box2)
    (hs1 : p1.style = .paragraph) (hs2 : p2.style = .paragraph)
    (hne : box1 ≠ box2) :
    mergeBlocksList [p1, p2] =
      (if 479 ≤ pyRound1 box2.firstLineX ∧ pyRound1 box2.firstLineX ≤ 480
       then [{ item := none }, p1.merge p2]
       else [{ item := none }, p1, p2]) ∧
    (p1.merge p2).inlines = p1.inlines ++ p2.inlines := by
  refine ⟨?_, merge_inlines p1 p2⟩
  have hh1 : p1.is_header = false :=
    style_ne_header_is_header_false h1 (by rw [hs1]; decide)
  have hh2 : p2.is_header = false :=
    style_ne_header_is_header_false h2 (by rw [hs2]; decide)
  have hnc1 : p1.style ≠ .code := by rw [hs1]; decide
  have hnc2 : p2.style ≠ .code := by rw [hs2]; decide
  have hcond1 : contMergeCond { item := none } p1 = false := by
    simp [contMergeCond, sentinel_style_code, hs1]
  have hgf : p2.get_firstline_x = some box2.firstLineX := by
    simp [BlockElement.get_firstline_x, hi2]
  unfold mergeBlocksList
  rw [mergeGo_text_append_step _ _ hh1 hnc1 hcond1]
  by_cases hband : 479 ≤ pyRound1 box2.firstLineX ∧ pyRound1 box2.firstLineX ≤ 480
  · rw [if_pos hband]
    have hcond2 : contMergeCond p1 p2 = true := by
      unfold contMergeCond
      rw [hgf]
      simp [hs1, hs2, hi1, hi2, hne, hband.1, hband.2]
    rw [mergeGo_text_merge_step _ _ hh2 hnc2 hcond2, mergeGo_nil]
    simp
  · rw [if_neg hband]
    have hbnd : (decide (479 ≤ pyRound1 box2.firstLineX) &&
        decide (pyRound1 box2.firstLineX ≤ 480)) = false := by
      by_cases ha : 479 ≤ pyRound1 box2.firstLineX
      · have hb2 : ¬pyRound1 box2.firstLineX ≤ 480 := fun hb2 => hband ⟨ha, hb2⟩
        simp [hb2]
      · simp [ha]
    have hcond2 : contMergeCond p1 p2 = false := by
      unfold contMergeCond
      rw [hgf]
      simp [hbnd]
    rw [mergeGo_text_append_step _ _ hh2 hnc2 hcond2, mergeGo_nil]
    simp

def c4P1 : BlockElement :=
  { item := some ⟨1, 4800, 50000, 4800⟩,
    inlines := [{ style := .normal, text_stack := ["Hello"] }] }

def c4P2 (x : ℤ) : BlockElement :=
  { item := some ⟨2, x, 48000, x⟩,
    inlines := [{ style := .normal, text_stack := ["world"] }] }

theorem c4_witness :
    (mergeBlocksList [c4P1, c4P2 4800] = [{ item := none }, c4P1.merge (c4P2 4800)] ∧
      (c4P1.merge (c4P2 4800)).render_text = "Hello world") ∧
    mergeBlocksList [c4P1, c4P2 5000] = [{ item := none }, c4P1, c4P2 5000] := by
  have h48 := c4_continuation_merge c4P1 (c4P2 4800) ⟨1, 4800, 50000, 4800⟩
    ⟨2, 4800, 48000, 4800⟩ rfl rfl rfl rfl (by decide) (by decide) (by decide)
  have h50 := c4_continuation_merge c4P1 (c4P2 5000) ⟨1, 4800, 50000, 4800⟩
    ⟨2, 5000, 48000, 5000⟩ rfl rfl rfl rfl (by decide) (by decide) (by decide)
  refine ⟨⟨?_, by decide⟩, ?_⟩
  · rw [h48.1, if_pos (by decide)]
  · rw [h50.1, if_neg (by decide)]

/-! ### C3: dropping of empty blocks -/

/-- C3 (amended): a block with zero inline runs is dropped when another
block is started on the same page (`new_block` pops a trailing empty working
block), and at merge time it is silently absorbed whenever the preceding
kept block — including the leading sentinel — has style `code`; an empty
block whose merge-scan predecessor is not code-styled survives to rendering
instead (see the counterexample). -/
theorem c3_empty_block_drop (ch : ChapterElement) (ps rest front : List BlockElement)
    (e last : BlockElement) (box : Box) (pg : Option Nat) (he : e.inlines = []) :
    (ch.page_blocks = ps ++ [e] →
      (ch.new_block box pg).page_blocks = ps ++ [{ item := some box, page := pg }]) ∧
    (e._style = none → e.item = some box → ¬box.y0 > 61000 → last.style = .code →
      mergeGo front last (e :: rest) = mergeGo front last rest) := by
  constructor
  · intro hpb
    unfold ChapterElement.new_block
    rw [hpb]
    simp [List.getLast?_concat, he, List.dropLast_concat]
  · intro hst hitem hy hlc
    have hbh : e.is_header = false := is_header_false_of hst hitem hy
    have hec : e.style = .code := style_empty_code hst he hbh
    rw [mergeGo_code_merge_step front rest hbh hec hlc]
    have hme : last.merge e = last := by
      simp [BlockElement.merge, he]
    rw [hme]

def c3Para : BlockElement :=
  { item := some ⟨1, 4800, 50000, 4800⟩,
    inlines := [{ style := .normal, text_stack := ["a"] }] }

def c3Empty : BlockElement := { item := some ⟨2, 4800, 40000, 4800⟩ }

/-- C3 counterexample to the unamended claim: an empty block whose merge-scan
predecessor is a paragraph block is kept (its inferred style is `code`, the
predecessor's is not), and `Chapter.render` emits an empty code-block
directive for it — the empty block does contribute text to the output. -/
theorem c3_counterexample :
    c3Empty.inlines = [] ∧
    ChapterElement.render { blocks := [c3Para, c3Empty] } =
      some "\n\na\n\n.. code-block::\n\n\n\n" ∧
    ChapterElement.render { blocks := [c3Para, c3Empty] } ≠
      ChapterElement.render { blocks := [c3Para] } :=
  ⟨rfl, by decide, by decide⟩

theorem c3_witness :
    (ChapterElement.new_block { page_blocks := [c3Para, c3Empty] }
        ⟨2, 4800, 40000, 4800⟩ none).page_blocks =
      [c3Para] ++ [{ item := some ⟨2, 4800, 40000, 4800⟩, page := none }] ∧
    mergeGo [] { item := none, _style := some .code } [c3Empty] =
      mergeGo [] { item := none, _style := some .code } [] := by
  have h := c3_empty_block_drop { page_blocks := [c3Para, c3Empty] } [c3Para] [] []
    c3Empty { item := none, _style := some .code } ⟨2, 4800, 40000, 4800⟩ none rfl
  exact ⟨h.1 rfl, h.2 rfl rfl (by decide) (by decide)⟩

/-! ### C5: the sentinel block at the head of `merge_blocks` output -/

theorem mergeGo_skip_headers (bs1 : List BlockElement) (h : ∀ x ∈ bs1, x.is_header = true) :
    ∀ front last l, mergeGo front last (bs1 ++ l) = mergeGo front last l := by
  induction bs1 with
  | nil => intro front last l; rfl
  | cons x bs1 ih =>
    intro front last l
    rw [List.cons_append, mergeGo_skip_step front last (bs1 ++ l) (h x (by simp))]
    exact ih (fun y hy => h y (by simp [hy])) front last l

theorem mergeGo_head (bs : List BlockElement) :
    ∀ front last, ∃ last2 ts ext, mergeGo front last bs = front ++ last2 :: ts ∧
      last2.item = last.item ∧ last2._style = last._style ∧ last2.page = last.page ∧
      last2.inlines = last.inlines ++ ext := by
  induction bs with
  | nil =>
    intro front last
    exact ⟨last, [], [], by simp [mergeGo], rfl, rfl, rfl, by simp⟩
  | cons b bs ih =>
    intro front last
    by_cases hbh : b.is_header = true
    · rw [mergeGo_skip_step front last bs hbh]
      exact ih front last
    · have hbh' : b.is_header = false := by simpa using hbh
      by_cases hbc : b.style = .code
      · by_cases hlc : last.style = .code
        · rw [mergeGo_code_merge_step front bs hbh' hbc hlc]
          obtain ⟨l2, ts, ext, heq, hi, hs, hp, hinl⟩ := ih front (last.merge b)
          exact ⟨l2, ts, b.inlines ++ ext, heq, hi.trans (merge_item _ _),
            hs.trans (merge_style_field _ _), hp.trans (merge_page _ _),
            by rw [hinl, merge_inlines, List.append_assoc]⟩
        · rw [mergeGo_code_append_step front bs hbh' hbc hlc]
          obtain ⟨l2, ts, ext, heq, -, -, -, -⟩ := ih (front ++ [last]) b
          exact ⟨last, l2 :: ts, [], by rw [heq]; simp, rfl, rfl, rfl, by simp⟩
      · by_cases hcond : contMergeCond last b = true
        · rw [mergeGo_text_merge_step front bs hbh' hbc hcond]
          obtain ⟨l2, ts, ext, heq, hi, hs, hp, hinl⟩ := ih front (last.merge b)
          exact ⟨l2, ts, b.inlines ++ ext, heq, hi.trans (merge_item _ _),
            hs.trans (merge_style_field _ _), hp.trans (merge_page _ _),
            by rw [hinl, merge_inlines, List.append_assoc]⟩
        · have hcond' : contMergeCond last b = false := by simpa using hcond
          rw [mergeGo_text_append_step front bs hbh' hbc hcond']
          obtain ⟨l2, ts, ext, heq, -, -, -, -⟩ := ih (front ++ [last]) b
          exact ⟨last, l2 :: ts, [], by rw [heq]; simp, rfl, rfl, rfl, by simp⟩

/-- C5: `merge_blocks` always places a sentinel block with `item` `None` at
the head of its output (first conjunct, for every block list); when the
first non-skipped input block has style `code`, that block's inline runs are
merged into the sentinel (second conjunct), and since `render` returns the
empty string for a block without an `item`, that leading code text is absent
from the rendered output. -/
theorem c5_sentinel_swallows_leading_code (bs bs1 bs2 : List BlockElement) (b : BlockElement)
    (hdec : bs = bs1 ++ b :: bs2) (hhdr : ∀ x ∈ bs1, x.is_header = true)
    (hb : b.is_header = false) (hc : b.style = .code) :
    (∀ l : List BlockElement, ∃ s ts, mergeBlocksList l = s :: ts ∧ s.item = none ∧
      s.render = some "") ∧
    (∃ s ts ext, mergeBlocksList bs = s :: ts ∧ s.item = none ∧ s._style = none ∧
      s.inlines = b.inlines ++ ext ∧ s.render = some "") := by
  constructor
  · intro l
    obtain ⟨l2, ts, ext, heq, hi, -, -, -⟩ := mergeGo_head l [] { item := none }
    exact ⟨l2, ts, by simpa using heq, hi, render_of_item_none hi⟩
  · unfold mergeBlocksList
    rw [hdec, mergeGo_skip_headers bs1 hhdr [] { item := none } (b :: bs2)]
    rw [mergeGo_code_merge_step [] bs2 hb hc sentinel_style_code]
    obtain ⟨l2, ts, ext, heq, hi, hs, -, hinl⟩ :=
      mergeGo_head bs2 [] (BlockElement.merge { item := none } b)
    refine ⟨l2, ts, ext, by simpa using heq, hi.trans (merge_item _ _),
      hs.trans (merge_style_field _ _), ?_, render_of_item_none (hi.trans (merge_item _ _))⟩
    rw [hinl, merge_inlines]
    simp

def c5Hdr : BlockElement :=
  { item := some ⟨1, 4800, 70000, 4800⟩,
    inlines := [{ style := .header, text_stack := ["A Smarter Way to Learn"] }] }

def c5Code : BlockElement :=
  { item := some ⟨2, 6000, 50000, 6000⟩,
    inlines := [{ style := .code, text_stack := ["print(1)"] }] }

theorem c5_witness :
    ∃ s ts ext, mergeBlocksList [c5Hdr, c5Code] = s :: ts ∧ s.item = none ∧
      s._style = none ∧ s.inlines = c5Code.inlines ++ ext ∧ s.render = some "" :=
  (c5_sentinel_swallows_leading_code [c5Hdr, c5Code] [c5Hdr] [] c5Code rfl
    (by decide) (by decide) (by decide)).2

/-! ### C7: one unsupported-font warning per line -/

/-- The warning cache after a run of `visit_LTChar` over a character
sequence: an unmapped signature adds its line id, once. -/
def warnCache : List Nat → List CharEvt → List Nat
  | cache, [] => cache
  | cache, e :: rest =>
    if classify e.fontname e.size = none then
      if e.lineId ∈ cache then warnCache cache rest
      else warnCache (cache ++ [e.lineId]) rest
    else warnCache cache rest

/-- The warnings emitted by a run of `visit_LTChar` over a character
sequence (inside a non-header block): one per line id not yet cached. -/
def expectedWarns : List Nat → List CharEvt → List Nat
  | _, [] => []
  | cache, e :: rest =>
    if classify e.fontname e.size = none then
      if e.lineId ∈ cache then expectedWarns cache rest
      else e.lineId :: expectedWarns (cache ++ [e.lineId]) rest
    else expectedWarns cache rest

theorem modifyLast_concat (f : α → α) (l : List α) (a : α) :
    modifyLast f (l ++ [a]) = l ++ [f a] := by
  induction l with
  | nil => rfl
  | cons x l ih =>
    cases l with
    | nil => rfl
    | cons y l' =>
      show x :: modifyLast f ((y :: l') ++ [a]) = x :: ((y :: l') ++ [f a])
      rw [ih]

theorem chapterSet (blocks ps : List BlockElement) (b : BlockElement) (st : Style) :
    ChapterElement.set_inline_style ⟨blocks, ps ++ [b]⟩ st =
      some ⟨blocks, ps ++ [b.set_inline_style st]⟩ := by
  unfold ChapterElement.set_inline_style
  split
  · next heq => exact absurd heq (by simp)
  · rw [modifyLast_concat]

theorem chapterPush (blocks ps : List BlockElement) (b : BlockElement) (t : String) :
    ChapterElement.push_text ⟨blocks, ps ++ [b]⟩ t =
      some ⟨blocks, ps ++ [b.push_text t]⟩ := by
  unfold ChapterElement.push_text
  split
  · next heq => exact absurd heq (by simp)
  · rw [modifyLast_concat]

theorem getBlockStyle_concat (blocks ps : List BlockElement) (b : BlockElement) :
    ChapterElement.get_block_style ⟨blocks, ps ++ [b]⟩ = some b.style := by
  simp [ChapterElement.get_block_style, List.getLast?_concat]

theorem set_inline_style_fields (b : BlockElement) (st : Style) :
    (b.set_inline_style st)._style = b._style ∧ (b.set_inline_style st).item = b.item := by
  unfold BlockElement.set_inline_style
  split
  · exact ⟨rfl, rfl⟩
  · split
    · exact ⟨rfl, rfl⟩
    · exact ⟨rfl, rfl⟩

theorem push_text_fields (b : BlockElement) (t : String) :
    (b.push_text t)._style = b._style ∧ (b.push_text t).item = b.item := by
  unfold BlockElement.push_text
  split
  · exact ⟨rfl, rfl⟩
  · exact ⟨rfl, rfl⟩

theorem style_ne_header_of_low {b : BlockElement} {box : Box} (hst : b._style = none)
    (hitem : b.item = some box) (hy : ¬box.y0 > 61000) : b.style ≠ .header := by
  rw [style_of_none hst (is_header_false_of hst hitem hy)]
  exact guessStyle_ne_header _

/-- A full character run over a fixed current block (the visitor only ever
touches the last working block): the chapter keeps its shape, the cache and
warning stream are `warnCache`/`expectedWarns`. -/
theorem visitChars_run {box : Box} (hy : ¬box.y0 > 61000) (evs : List CharEvt) :
    ∀ (blocks ps : List BlockElement) (b : BlockElement) (cache : List Nat),
    b._style = none → b.item = some box →
    ∃ b', visitChars ⟨blocks, ps ++ [b]⟩ cache evs =
        some (⟨blocks, ps ++ [b']⟩, warnCache cache evs, expectedWarns cache evs) ∧
      b'._style = none ∧ b'.item = some box := by
  induction evs with
  | nil =>
    intro blocks ps b cache hst hitem
    exact ⟨b, rfl, hst, hitem⟩
  | cons e evs ih =>
    intro blocks ps b cache hst hitem
    cases hcl : classify e.fontname e.size with
    | some st =>
      have hv : visit_LTChar ⟨blocks, ps ++ [b]⟩ cache e =
          some (⟨blocks, ps ++ [(b.set_inline_style st).push_text (pushNorm e.text)]⟩,
            cache, []) := by
        simp only [visit_LTChar, hcl, chapterSet, chapterPush]
      have hb1st : ((b.set_inline_style st).push_text (pushNorm e.text))._style = none := by
        rw [(push_text_fields _ _).1, (set_inline_style_fields _ _).1]
        exact hst
      have hb1it : ((b.set_inline_style st).push_text (pushNorm e.text)).item = some box := by
        rw [(push_text_fields _ _).2, (set_inline_style_fields _ _).2]
        exact hitem
      obtain ⟨b', hrun, hst', hit'⟩ := ih blocks ps _ cache hb1st hb1it
      refine ⟨b', ?_, hst', hit'⟩
      simp only [visitChars, hv, hrun]
      simp [warnCache, expectedWarns, hcl]
    | none =>
      have hsty : b.style ≠ .header := style_ne_header_of_low hst hitem hy
      have hv : visit_LTChar ⟨blocks, ps ++ [b]⟩ cache e =
          some (⟨blocks, ps ++ [(b.set_inline_style .normal).push_text (pushNorm e.text)]⟩,
            (font_warning cache e.lineId).1, (font_warning cache e.lineId).2) := by
        simp only [visit_LTChar, hcl, getBlockStyle_concat, chapterSet, chapterPush]
        rw [if_pos hsty]
      have hb1st : ((b.set_inline_style .normal).push_text (pushNorm e.text))._style = none := by
        rw [(push_text_fields _ _).1, (set_inline_style_fields _ _).1]
        exact hst
      have hb1it : ((b.set_inline_style .normal).push_text (pushNorm e.text)).item =
          some box := by
        rw [(push_text_fields _ _).2, (set_inline_style_fields _ _).2]
        exact hitem
      by_cases hmem : e.lineId ∈ cache
      · have hfw : font_warning cache e.lineId = (cache, []) := by
          simp [font_warning, hmem]
        rw [hfw] at hv
        obtain ⟨b', hrun, hst', hit'⟩ := ih blocks ps _ cache hb1st hb1it
        refine ⟨b', ?_, hst', hit'⟩
        simp only [visitChars, hv, hrun]
        simp [warnCache, expectedWarns, hcl, hmem]
      · have hfw : font_warning cache e.lineId = (cache ++ [e.lineId], [e.lineId]) := by
          simp [font_warning, hmem]
        rw [hfw] at hv
        obtain ⟨b', hrun, hst', hit'⟩ := ih blocks ps _ (cache ++ [e.lineId]) hb1st hb1it
        refine ⟨b', ?_, hst', hit'⟩
        simp only [visitChars, hv, hrun]
        simp [warnCache, expectedWarns, hcl, hmem]

theorem expectedWarns_mem (evs : List CharEvt) :
    ∀ (cache : List Nat) (L : Nat),
    L ∈ expectedWarns cache evs ↔
      (L ∉ cache ∧ ∃ e ∈ evs, classify e.fontname e.size = none ∧ e.lineId = L) := by
  induction evs with
  | nil =>
    intro cache L
    simp [expectedWarns]
  | cons e evs ih =>
    intro cache L
    by_cases hcl : classify e.fontname e.size = none
    · by_cases hmem : e.lineId ∈ cache
      · rw [show expectedWarns cache (e :: evs) = expectedWarns cache evs from by
          simp [expectedWarns, hcl, hmem]]
        rw [ih]
        constructor
        · rintro ⟨hLc, x, hx, hp⟩
          exact ⟨hLc, x, List.mem_cons_of_mem _ hx, hp⟩
        · rintro ⟨hLc, x, hx, hp⟩
          rcases List.mem_cons.mp hx with rfl | hx'
          · exact absurd (hp.2 ▸ hmem) hLc
          · exact ⟨hLc, x, hx', hp⟩
      · rw [show expectedWarns cache (e :: evs) =
            e.lineId :: expectedWarns (cache ++ [e.lineId]) evs from by
          simp [expectedWarns, hcl, hmem]]
        simp only [List.mem_cons]
        rw [ih]
        constructor
        · rintro (rfl | ⟨hLc, x, hx, hp⟩)
          · exact ⟨hmem, e, Or.inl rfl, hcl, rfl⟩
          · have hLc' : L ∉ cache := fun hc => hLc (List.mem_append_left _ hc)
            exact ⟨hLc', x, Or.inr hx, hp⟩
        · rintro ⟨hLc, x, hx, hp⟩
          rcases hx with rfl | hx'
          · exact Or.inl hp.2.symm
          · by_cases hLe : L = e.lineId
            · exact Or.inl hLe
            · refine Or.inr ⟨?_, x, hx', hp⟩
              intro hin
              rcases List.mem_append.mp hin with h | h
              · exact hLc h
              · exact hLe (by simpa using h)
    · rw [show expectedWarns cache (e :: evs) = expectedWarns cache evs from by
        simp [expectedWarns, hcl]]
      rw [ih]
      constructor
      · rintro ⟨hLc, x, hx, hp⟩
        exact ⟨hLc, x, List.mem_cons_of_mem _ hx, hp⟩
      · rintro ⟨hLc, x, hx, hp⟩
        rcases List.mem_cons.mp hx with rfl | hx'
        · exact absurd hp.1 hcl
        · exact ⟨hLc, x, hx', hp⟩

theorem expectedWarns_count_le (evs : List CharEvt) :
    ∀ (cache : List Nat) (L : Nat), (expectedWarns cache evs).count L ≤ 1 := by
  induction evs with
  | nil =>
    intro cache L
    simp [expectedWarns]
  | cons e evs ih =>
    intro cache L
    by_cases hcl : classify e.fontname e.size = none
    · by_cases hmem : e.lineId ∈ cache
      · rw [show expectedWarns cache (e :: evs) = expectedWarns cache evs from by
          simp [expectedWarns, hcl, hmem]]
        exact ih cache L
      · rw [show expectedWarns cache (e :: evs) =
            e.lineId :: expectedWarns (cache ++ [e.lineId]) evs from by
          simp [expectedWarns, hcl, hmem]]
        by_cases hL : L = e.lineId
        · have hnot : e.lineId ∉ expectedWarns (cache ++ [e.lineId]) evs := by
            rw [expectedWarns_mem]
            rintro ⟨hc, -⟩
            exact hc (List.mem_append_right _ (by simp))
          rw [hL, List.count_cons_self, List.count_eq_zero.mpr hnot]
        · rw [List.count_cons_of_ne hL]
          exact ih _ L
    · rw [show expectedWarns cache (e :: evs) = expectedWarns cache evs from by
        simp [expectedWarns, hcl]]
      exact ih cache L

/-- C7 (amended): over any character run inside one current block that is
not a page header, at most one unsupported-font warning is emitted per
enclosing line — exactly one for a line iff some character of that line has
an unmapped signature (first two conjuncts) — and an unmapped character
falls back to inline style `normal` (third conjunct).  The unamended claim
fails for characters visited while the current block is a header (see the
counterexample). -/
theorem c7_font_warning_per_line (blocks ps : List BlockElement) (b : BlockElement)
    (box : Box) (evs : List CharEvt) (L : Nat) (fn : String) (sz : ℤ) (ln : Nat)
    (tx : String) (hst : b._style = none) (hitem : b.item = some box)
    (hy : ¬box.y0 > 61000) :
    (∃ b', visitChars ⟨blocks, ps ++ [b]⟩ [] evs =
        some (⟨blocks, ps ++ [b']⟩, warnCache [] evs, expectedWarns [] evs) ∧
      b'._style = none ∧ b'.item = some box) ∧
    ((expectedWarns [] evs).count L =
      if ∃ e ∈ evs, classify e.fontname e.size = none ∧ e.lineId = L then 1 else 0) ∧
    (classify fn sz = none →
      visit_LTChar ⟨blocks, ps ++ [{ item := some box }]⟩ [] ⟨fn, sz, ln, tx⟩ =
        some (⟨blocks, ps ++
            [{ item := some box,
               inlines := [{ style := .normal, text_stack := [pushNorm tx] }] }]⟩,
          [ln], [ln])) := by
  refine ⟨visitChars_run hy evs blocks ps b [] hst hitem, ?_, ?_⟩
  · by_cases hex : ∃ e ∈ evs, classify e.fontname e.size = none ∧ e.lineId = L
    · rw [if_pos hex]
      have hmem : L ∈ expectedWarns [] evs :=
        (expectedWarns_mem evs [] L).mpr ⟨by simp, hex⟩
      have h1 : 0 < (expectedWarns [] evs).count L := by
        by_contra hz
        have : (expectedWarns [] evs).count L = 0 := by omega
        exact absurd hmem (List.count_eq_zero.mp this)
      have h2 := expectedWarns_count_le evs [] L
      omega
    · rw [if_neg hex]
      exact List.count_eq_zero.mpr
        (fun hmem => hex ((expectedWarns_mem evs [] L).mp hmem).2)
  · intro hclnone
    have hsty : ({ item := some box } : BlockElement).style ≠ .header :=
      style_ne_header_of_low rfl rfl hy
    have hv := getBlockStyle_concat blocks ps { item := some box }
    simp only [visit_LTChar, hclnone, hv, chapterSet, chapterPush]
    rw [if_pos hsty]
    simp [font_warning, BlockElement.set_inline_style, BlockElement.push_text, modifyLast]

/-- C7 counterexample to the unamended claim: a line whose only unmapped
character is visited while the current block is a page header gets zero
warnings, not exactly one. -/
def c7HeaderChapter : ChapterElement :=
  { page_blocks := [{ item := some ⟨0, 0, 70000, 0⟩ }] }

theorem c7_counterexample :
    classify "UnknownFont" 1000 = none ∧
    (visit_LTChar c7HeaderChapter [] ⟨"UnknownFont", 1000, 5, "x"⟩).map
      (fun r => r.2.2) = some [] :=
  ⟨by decide, by decide⟩

theorem c7_witness :
    ((expectedWarns []
        [⟨"UnknownFont", 1000, 5, "x"⟩, ⟨"UnknownFont", 1000, 5, "y"⟩]).count 5 =
      if ∃ e ∈ [(⟨"UnknownFont", 1000, 5, "x"⟩ : CharEvt), ⟨"UnknownFont", 1000, 5, "y"⟩],
          classify e.fontname e.size = none ∧ e.lineId = 5 then 1 else 0) ∧
    (expectedWarns []
        [⟨"UnknownFont", 1000, 5, "x"⟩, ⟨"UnknownFont", 1000, 5, "y"⟩]).count 5 = 1 :=
  ⟨(c7_font_warning_per_line [] [] { item := some ⟨0, 0, 30000, 0⟩ } ⟨0, 0, 30000, 0⟩
      [⟨"UnknownFont", 1000, 5, "x"⟩, ⟨"UnknownFont", 1000, 5, "y"⟩] 5
      "UnknownFont" 1000 5 "x" rfl rfl (by decide)).2.1, by decide⟩

end TextConv
